import Mathlib

/-!
Shallow embedding of the book-recommendation backend's core logic:
the cache service (`src/backend/services/cache_service.py`), the
streaming recommendations relay
(`src/backend/routers/recommendations.py`) and the error handler
(`src/backend/services/error_handler.py`), together with proofs of the
behavioural properties claimed for them.

Network effects (the Redis client, the OpenAI client) are modelled as
explicit oracle parameters describing the outcome of the external call;
wall-clock time is an explicit `now : Nat` parameter; Python dicts are
modelled as insertion-ordered association lists.
-/

namespace BookRec

/-! ### Python string primitives -/

/-- Characters removed by Python's `str.strip()` (ASCII whitespace). -/
def pyIsSpace (c : Char) : Bool :=
  c = ' ' ∨ c = '\t' ∨ c = '\n' ∨ c = '\r' ∨ c = '\x0b' ∨ c = '\x0c'

/-- Python `str.strip()`. -/
def pyStrip (s : String) : String :=
  ⟨((s.data.dropWhile pyIsSpace).reverse.dropWhile pyIsSpace).reverse⟩

/-- Python `str.lower()` (ASCII case folding). -/
def pyLower (s : String) : String :=
  ⟨s.data.map Char.toLower⟩

/-- Python `repr` of a simple (quote-free, printable-ASCII) string. -/
def pyStrRepr (s : String) : String := "'" ++ s ++ "'"

/-- Python f-string rendering of a list of simple strings,
e.g. `['a', 'b']`. -/
def pyListRepr (xs : List String) : String :=
  "[" ++ String.intercalate ", " (xs.map pyStrRepr) ++ "]"

/-- Python `str.split(',')` followed per piece by `strip` and `lower`,
keeping the pieces whose stripped form is non-empty: the tag parsing in
`_stream_recommendations`. -/
def pySplitCommaTags (s : String) : List String :=
  ((s.split (fun c => c = ',')).map (fun t => pyLower (pyStrip t))).filter
    (fun t => t ≠ "")

/-! ### MD5 (`hashlib.md5(...).hexdigest()`), over byte lists -/

/-- Truncation to a 32-bit word. -/
def w32 (n : Nat) : Nat := n % 4294967296

/-- 32-bit left rotation. -/
def rotl32 (x n : Nat) : Nat := w32 ((x <<< n) ||| (x >>> (32 - n)))

/-- The MD5 sine-derived constant table. -/
def md5K : List Nat :=
  [3614090360, 3905402710, 606105819, 3250441966, 4118548399, 1200080426,
   2821735955, 4249261313, 1770035416, 2336552879, 4294925233, 2304563134,
   1804603682, 4254626195, 2792965006, 1236535329, 4129170786, 3225465664,
   643717713, 3921069994, 3593408605, 38016083, 3634488961, 3889429448,
   568446438, 3275163606, 4107603335, 1163531501, 2850285829, 4243563512,
   1735328473, 2368359562, 4294588738, 2272392833, 1839030562, 4259657740,
   2763975236, 1272893353, 4139469664, 3200236656, 681279174, 3936430074,
   3572445317, 76029189, 3654602809, 3873151461, 530742520, 3299628645,
   4096336452, 1126891415, 2878612391, 4237533241, 1700485571, 2399980690,
   4293915773, 2240044497, 1873313359, 4264355552, 2734768916, 1309151649,
   4149444226, 3174756917, 718787259, 3951481745]

/-- The MD5 per-round shift table. -/
def md5S : List Nat :=
  [7, 12, 17, 22, 7, 12, 17, 22, 7, 12, 17, 22, 7, 12, 17, 22,
   5, 9, 14, 20, 5, 9, 14, 20, 5, 9, 14, 20, 5, 9, 14, 20,
   4, 11, 16, 23, 4, 11, 16, 23, 4, 11, 16, 23, 4, 11, 16, 23,
   6, 10, 15, 21, 6, 10, 15, 21, 6, 10, 15, 21, 6, 10, 15, 21]

/-- The MD5 round mixing function (F, G, H, I by round index). -/
def md5F (i b c d : Nat) : Nat :=
  if i < 16 then (b &&& c) ||| ((b ^^^ 4294967295) &&& d)
  else if i < 32 then (d &&& b) ||| ((d ^^^ 4294967295) &&& c)
  else if i < 48 then b ^^^ c ^^^ d
  else c ^^^ (b ||| (d ^^^ 4294967295))

/-- The MD5 message-word index schedule. -/
def md5G (i : Nat) : Nat :=
  if i < 16 then i
  else if i < 32 then (5 * i + 1) % 16
  else if i < 48 then (3 * i + 5) % 16
  else (7 * i) % 16

/-- One MD5 round on the state `(a, b, c, d)`. -/
def md5Round (M : List Nat) (st : Nat × Nat × Nat × Nat) (i : Nat) :
    Nat × Nat × Nat × Nat :=
  let a := st.1; let b := st.2.1; let c := st.2.2.1; let d := st.2.2.2
  let f := w32 (md5F i b c d)
  let tmp := w32 (a + f + md5K.getD i 0 + M.getD (md5G i) 0)
  (d, w32 (b + rotl32 tmp (md5S.getD i 0)), b, c)

/-- Processing of one 16-word block. -/
def md5Block (st : Nat × Nat × Nat × Nat) (M : List Nat) : Nat × Nat × Nat × Nat :=
  let r := (List.range 64).foldl (md5Round M) st
  (w32 (st.1 + r.1), w32 (st.2.1 + r.2.1), w32 (st.2.2.1 + r.2.2.1),
   w32 (st.2.2.2 + r.2.2.2))

/-- Little-endian grouping of bytes into 32-bit words. -/
def bytesToWords : List Nat → List Nat
  | b0 :: b1 :: b2 :: b3 :: rest =>
      (b0 + 256 * b1 + 65536 * b2 + 16777216 * b3) :: bytesToWords rest
  | _ => []

/-- Block loop; the fuel is an upper bound on the number of blocks and
is instantiated with the word-list length, which always suffices. -/
def md5Loop : Nat → (Nat × Nat × Nat × Nat) → List Nat → Nat × Nat × Nat × Nat
  | 0, st, _ => st
  | _, st, [] => st
  | fuel + 1, st, ws => md5Loop fuel (md5Block st (ws.take 16)) (ws.drop 16)

/-- MD5 padding: `0x80`, zeros to 56 mod 64, then the bit length as a
64-bit little-endian number. -/
def md5Pad (msg : List Nat) : List Nat :=
  let len := msg.length
  let bitLen := len * 8
  msg ++ [128] ++ List.replicate ((119 - (len % 64)) % 64) 0 ++
    (List.range 8).map (fun i => (bitLen >>> (8 * i)) % 256)

/-- Lowercase hexadecimal digit. -/
def hexDigit (n : Nat) : Char :=
  if n < 10 then Char.ofNat (48 + n) else Char.ofNat (87 + n)

/-- Two-digit lowercase hexadecimal rendering of a byte. -/
def byteHex (b : Nat) : String := ⟨[hexDigit (b / 16), hexDigit (b % 16)]⟩

/-- Little-endian hexadecimal rendering of a 32-bit word. -/
def wordHexLE (w : Nat) : String :=
  byteHex (w % 256) ++ byteHex ((w >>> 8) % 256) ++
    byteHex ((w >>> 16) % 256) ++ byteHex ((w >>> 24) % 256)

/-- The MD5 state after digesting a byte string. -/
def md5Bytes (msg : List Nat) : Nat × Nat × Nat × Nat :=
  let ws := bytesToWords (md5Pad msg)
  md5Loop ws.length (1732584193, 4023233417, 2562383102, 271733878) ws

/-- `hashlib.md5(msg).hexdigest()`. -/
def md5Hex (msg : List Nat) : String :=
  let r := md5Bytes msg
  wordHexLE r.1 ++ wordHexLE r.2.1 ++ wordHexLE r.2.2.1 ++ wordHexLE r.2.2.2

/-- UTF-8 encoding of one character (Python `str.encode()`). -/
def utf8Encode (c : Char) : List Nat :=
  let n := c.toNat
  if n < 128 then [n]
  else if n < 2048 then [192 + n / 64, 128 + n % 64]
  else if n < 65536 then [224 + n / 4096, 128 + (n / 64) % 64, 128 + n % 64]
  else [240 + n / 262144, 128 + (n / 4096) % 64, 128 + (n / 64) % 64, 128 + n % 64]

/-- UTF-8 bytes of a string. -/
def strBytes (s : String) : List Nat := (s.data.map utf8Encode).flatten

/-! ### Python dict model: insertion-ordered association lists -/

/-- A Python dict with `String` keys, as an insertion-ordered
association list. -/
abbrev Dict (β : Type) := List (String × β)

/-- `d.get(k)` / `d[k]`. -/
def dget? {β : Type} (d : Dict β) (k : String) : Option β :=
  (d.find? (fun p => p.1 == k)).map Prod.snd

/-- `k in d`. -/
def dmem {β : Type} (d : Dict β) (k : String) : Bool :=
  d.any (fun p => p.1 == k)

/-- `d[k] = v`: replace in place when the key is present (Python dicts
keep the original position), append otherwise. -/
def dset {β : Type} : Dict β → String → β → Dict β
  | [], k, v => [(k, v)]
  | p :: rest, k, v =>
      if p.1 = k then (k, v) :: rest else p :: dset rest k v

/-- `del d[k]` / `d.pop(k, None)`. -/
def ddel {β : Type} (d : Dict β) (k : String) : Dict β :=
  d.filter (fun p => p.1 != k)

/-- `list(d.keys())`. -/
def dkeys {β : Type} (d : Dict β) : List String := d.map Prod.fst

/-- `min(d.items(), key=lambda x: x[1])`: the first item with minimal
value, as Python's `min` keeps the earliest of equal minima. -/
def dminSnd : Dict Nat → Option (String × Nat)
  | [] => none
  | p :: rest =>
      match dminSnd rest with
      | none => some p
      | some q => if p.2 ≤ q.2 then some p else some q

/-! ### cache_service.py -/

/-- `CACHE_DEFAULT_TTL` (`config.py`, env default 3600). -/
def CACHE_DEFAULT_TTL : Nat := 3600

/-- The module state of `cache_service.py`: the `_cache` payload dict
and the `_cache_ttl` expiry dict. -/
structure CacheState where
  cache : Dict String
  cacheTtl : Dict Nat
deriving Repr, DecidableEq

/-- The list comprehension
`[tag.lower().strip() for tag in tags if tag]` in `get_cache_key`:
truthy raw tags, each lower-cased then stripped. -/
def normTags (tags : List String) : List String :=
  (tags.filter (fun t => t ≠ "")).map (fun t => pyStrip (pyLower t))

/-- Lexicographic code-point comparison of character lists: Python's
`<=` on `str`. -/
def charListLeb : List Char → List Char → Bool
  | [], _ => true
  | _ :: _, [] => false
  | a :: as, b :: bs =>
      if a.toNat < b.toNat then true
      else if b.toNat < a.toNat then false
      else charListLeb as bs

/-- Python's `<=` on strings (code-point lexicographic). -/
def strLeb (a b : String) : Bool := charListLeb a.data b.data

/-- The comparison relation used to embed Python's `sorted`. -/
def strLe (a b : String) : Prop := strLeb a b = true

instance : DecidableRel strLe := fun _ _ => instDecidableEqBool _ _

/-- `get_cache_key`: lower-case and strip the name, lower-case, strip
and sort the truthy tags (no de-duplication), render as the Python
f-string `f"{normalized_name}:{normalized_tags}"` and digest with MD5.
Python's `sorted` on strings is the ascending code-point lexicographic
sort; its output is determined by the ordering, so it is embedded as
insertion sort over that ordering. -/
def get_cache_key (book_name : String) (tags : List String) : String :=
  let normalized_name := pyStrip (pyLower book_name)
  let normalized_tags := List.insertionSort strLe (normTags tags)
  let key_data := normalized_name ++ ":" ++ pyListRepr normalized_tags
  md5Hex (strBytes key_data)

/-- Outcome of the `_redis_client.get` call in `get_cached`: `none` when
no Redis client is configured; `some (Except.error ())` when the call
raises; `some (Except.ok r)` when it returns `r` (`none` = key absent). -/
abbrev RedisGetOutcome := Option (Except Unit (Option String))

/-- Outcome of the `_redis_client.setex` call in `set_cached`. -/
abbrev RedisSetOutcome := Option (Except Unit Unit)

/-- The in-memory branch of `get_cached`: hit when `time.time()` is
before the recorded expiry, otherwise the entry is deleted from both
dicts and the read misses. -/
def local_get (key : String) (now : Nat) (st : CacheState) :
    Option String × CacheState :=
  match dget? st.cache key with
  | some v =>
      if now < (dget? st.cacheTtl key).getD 0 then (some v, st)
      else (none, ⟨ddel st.cache key, ddel st.cacheTtl key⟩)
  | none => (none, st)

/-- `get_cached`: Redis is tried first when configured; a truthy Redis
reply is returned as-is, anything else (falsy reply or exception) falls
through to the in-memory cache. -/
def get_cached (redis : RedisGetOutcome) (book_name : String)
    (tags : List String) (ttlArg : Option Nat) (now : Nat) (st : CacheState) :
    Option String × CacheState :=
  let _ttl := ttlArg.getD CACHE_DEFAULT_TTL
  let key := get_cache_key book_name tags
  match redis with
  | some (Except.ok (some d)) =>
      if d ≠ "" then (some d, st) else local_get key now st
  | _ => local_get key now st

/-- The expired-entry purge in `set_cached`: every key of `_cache_ttl`
whose expiry is at or before `time.time()` is popped from both dicts. -/
def purge_expired (now : Nat) (st : CacheState) : CacheState :=
  let expired_keys := (st.cacheTtl.filter (fun p => p.2 ≤ now)).map Prod.fst
  ⟨expired_keys.foldl ddel st.cache, expired_keys.foldl ddel st.cacheTtl⟩

/-- The in-memory branch of `set_cached`: when the payload dict is at
capacity, purge expired entries; when still at capacity, evict the
entry with the minimal recorded expiry; then insert into both dicts. -/
def local_set (maxSize : Nat) (key payload : String) (expiry : Nat)
    (now : Nat) (st : CacheState) : CacheState :=
  let st1 :=
    if maxSize ≤ st.cache.length then
      let st' := purge_expired now st
      if maxSize ≤ st'.cache.length then
        match dminSnd st'.cacheTtl with
        | some oldest => ⟨ddel st'.cache oldest.1, ddel st'.cacheTtl oldest.1⟩
        | none => st'
      else st'
    else st
  ⟨dset st1.cache key payload, dset st1.cacheTtl key expiry⟩

/-- `set_cached`: a successful Redis `setex` returns without touching
the local store; otherwise the local store is written with expiry
`time.time() + ttl`. -/
def set_cached (maxSize : Nat) (redis : RedisSetOutcome) (book_name : String)
    (tags : List String) (result : String) (ttlArg : Option Nat) (now : Nat)
    (st : CacheState) : CacheState :=
  let ttl := ttlArg.getD CACHE_DEFAULT_TTL
  let key := get_cache_key book_name tags
  match redis with
  | some (Except.ok _) => st
  | _ => local_set maxSize key result (now + ttl) now st

/-- `clear_cache`: Redis failures are swallowed; both in-memory dicts
are unconditionally cleared. -/
def clear_cache (_st : CacheState) : CacheState := ⟨[], []⟩

/-! ### recommendations.py: the streaming relay -/

/-- `OPENAI_MODEL` (`config.py`). -/
def OPENAI_MODEL : String := "gpt-4o-mini"

/-- A streaming delta: its optional `content` attribute. -/
structure Delta where
  content : Option String
deriving Repr, DecidableEq

/-- One element of `chunk.choices`; `delta` is `None`-able. -/
structure StreamChoice where
  delta : Option Delta
deriving Repr, DecidableEq

/-- One fragment (`chunk`) of the upstream streaming response. -/
structure Chunk where
  choices : List StreamChoice
deriving Repr, DecidableEq

/-- The message of a non-streaming completion choice. -/
structure TagMessage where
  content : Option String
deriving Repr, DecidableEq

/-- One choice of the non-streaming tag completion. -/
structure TagChoice where
  message : TagMessage
deriving Repr, DecidableEq

/-- The non-streaming completion returned by the tag-resolution call. -/
structure TagsCompletion where
  choices : List TagChoice
deriving Repr, DecidableEq

/-- Failure modes of `client.chat.completions.create` for the
generation call: the three `except` clauses in `_stream_recommendations`
plus any other exception (caught by the outer catch-all). -/
inductive GenError where
  | rateLimitError
  | apiTimeoutError
  | apiError (msg : String)
  | other (msg : String)
deriving Repr, DecidableEq

/-- Outcome of the tag-resolution sub-call: `Except.error ()` when the
call raises any exception. -/
abbrev TagsCallOutcome := Except Unit TagsCompletion

/-- Outcome of the generation call: an initiation failure, or the list
of fragments the stream yields followed, when the iteration raises, by
the exception's `str(...)` text. -/
abbrev GenCallOutcome := Except GenError (List Chunk × Option String)

/-- One outbound server-sent event of the relay, by its JSON payload
shape: `{"tags": ...}`, `{"chunk": ..., "text": ...}`, `{"error": ...}`
or `{"done": true, "text": ...}`. -/
inductive Event where
  | tags (ts : List String)
  | chunk (c : String) (text : String)
  | error (msg : String)
  | done (text : String)
deriving Repr, DecidableEq

/-- The content the fragment loop extracts from one chunk: the first
choice's delta's `content`, when every step of that path is present. -/
def contentOf (ch : Chunk) : Option String :=
  match ch.choices with
  | [] => none
  | c :: _ =>
      match c.delta with
      | none => none
      | some d => d.content

/-- The fragment-consumption loop of `_stream_recommendations`:
given the remaining chunks, the accumulated text and the chunk count,
produce the emitted chunk events, the final accumulated text and the
final chunk count.  A chunk with no choices, no delta, or falsy content
is skipped; otherwise its content is appended and one chunk event
carrying the full accumulated text is emitted. -/
def processChunks : List Chunk → String → Nat → List Event × String × Nat
  | [], acc, cnt => ([], acc, cnt)
  | ch :: rest, acc, cnt =>
      let cnt' := cnt + 1
      match contentOf ch with
      | some c =>
          if c ≠ "" then
            let acc' := acc ++ c
            let r := processChunks rest acc' cnt'
            (Event.chunk c acc' :: r.1, r.2)
          else processChunks rest acc cnt'
      | none => processChunks rest acc cnt'

/-- The fixed safe message for a rate-limit failure. -/
def rateLimitMsg : String := "API rate limit exceeded. Please try again later."

/-- The fixed safe message for a timeout failure. -/
def timeoutMsg : String := "Request timed out. Please try again."

/-- The fixed safe message for a provider (`APIError`) failure. -/
def apiErrorMsg : String :=
  "Error communicating with recommendation service. Please try again later."

/-- The fixed message of the outer catch-all handler. -/
def unexpectedMsg : String :=
  "An unexpected error occurred. Please try again later."

/-- The mid-stream iteration-failure message; it embeds the raw
exception text. -/
def streamingErrorMsg (emsg : String) : String :=
  "Error during streaming: " ++ emsg

/-- The message emitted when the stream yielded no fragments at all. -/
def noChunksMsg : String :=
  "No chunks received from API. Model '" ++ OPENAI_MODEL ++
    "' may not exist or may not support streaming. Please check the model name and try again."

/-- The message emitted when fragments arrived but none carried
content. -/
def emptyResponseMsg (chunkCount : Nat) : String :=
  "Received " ++ toString chunkCount ++
    " chunks but no content. The model may have returned an empty response."

/-- The generation phase of `_stream_recommendations` (lines 74-180):
initiation failures map to one fixed error event; otherwise the
fragments are consumed, an iteration failure appends one error event
with the raw text, an empty accumulation yields one of the two
empty-stream error events, and success appends one done event. -/
def generate_events (genCall : GenCallOutcome) : List Event :=
  match genCall with
  | Except.error GenError.rateLimitError => [Event.error rateLimitMsg]
  | Except.error GenError.apiTimeoutError => [Event.error timeoutMsg]
  | Except.error (GenError.apiError _) => [Event.error apiErrorMsg]
  | Except.error (GenError.other _) => [Event.error unexpectedMsg]
  | Except.ok (chunks, iterFail) =>
      let r := processChunks chunks "" 0
      match iterFail with
      | some emsg => r.1 ++ [Event.error (streamingErrorMsg emsg)]
      | none =>
          if r.2.1 = "" then
            if r.2.2 = 0 then r.1 ++ [Event.error noChunksMsg]
            else r.1 ++ [Event.error (emptyResponseMsg r.2.2)]
          else r.1 ++ [Event.done r.2.1]

/-- The tag-resolution phase of `_stream_recommendations` (lines
33-69), entered only when the caller supplied no tags: on a response
with a truthy first-choice content, parse up to ten tags and emit one
tags event; on any exception, or a falsy response, emit nothing and
continue with the (empty) caller tag list. -/
def resolve_tags (tagsCall : TagsCallOutcome) (tags : List String) :
    List Event × List String :=
  if tags = [] then
    match tagsCall with
    | Except.error _ => ([], [])
    | Except.ok resp =>
        match resp.choices with
        | [] => ([], tags)
        | c :: _ =>
            match c.message.content with
            | none => ([], tags)
            | some content =>
                if content ≠ "" then
                  let parsed := (pySplitCommaTags (pyStrip content)).take 10
                  ([Event.tags parsed], parsed)
                else ([], tags)
  else ([], tags)

/-- `_stream_recommendations`: the full per-request event sequence, as
a function of the two upstream-call outcomes.  The resolved tags feed
only the prompt builder (out of scope), so the generation phase depends
only on its own call outcome. -/
def stream_recommendations (tagsCall : TagsCallOutcome)
    (genCall : GenCallOutcome) (_book_name : String) (tags : List String) :
    List Event :=
  (resolve_tags tagsCall tags).1 ++ generate_events genCall

/-! ### error_handler.py -/

/-- The exception taxonomy seen by `APIErrorHandler`: the `isinstance`
chain distinguishes `RateLimitError`, `APITimeoutError`, `APIError` and
everything else; each carries its `str(...)` text. -/
inductive PyError where
  | rateLimitError (msg : String)
  | apiTimeoutError (msg : String)
  | apiError (msg : String)
  | other (msg : String)
deriving Repr, DecidableEq

/-- Minimal JSON string escaping used by `json.dumps` for the message
strings at hand (backslash, quote, and common control characters). -/
def jsonEscapeChar (c : Char) : List Char :=
  if c = '\\' then ['\\', '\\']
  else if c = '"' then ['\\', '"']
  else if c = '\n' then ['\\', 'n']
  else if c = '\r' then ['\\', 'r']
  else if c = '\t' then ['\\', 't']
  else [c]

/-- `json.dumps({"error": message})`. -/
def jsonDumpsError (message : String) : String :=
  "\x7b\"error\": \"" ++ ⟨(message.data.map jsonEscapeChar).flatten⟩ ++
    "\"\x7d"

/-- `APIErrorHandler._format_sse_error`. -/
def format_sse_error (message : String) : String :=
  "data: " ++ jsonDumpsError message ++ "\n\n"

/-- `APIErrorHandler.handle_openai_error`. -/
def handle_openai_error (e : PyError) : String :=
  match e with
  | PyError.rateLimitError _ => format_sse_error rateLimitMsg
  | PyError.apiTimeoutError _ => format_sse_error timeoutMsg
  | PyError.apiError _ => format_sse_error apiErrorMsg
  | PyError.other _ => format_sse_error unexpectedMsg

/-- `APIErrorHandler.handle_stream_error`: embeds the exception text. -/
def handle_stream_error (e : PyError) : String :=
  match e with
  | PyError.rateLimitError m | PyError.apiTimeoutError m
  | PyError.apiError m | PyError.other m =>
      format_sse_error (streamingErrorMsg m)

/-- `APIErrorHandler.handle_empty_stream`. -/
def handle_empty_stream (chunkCount : Nat) : String :=
  if chunkCount = 0 then format_sse_error noChunksMsg
  else format_sse_error (emptyResponseMsg chunkCount)

/-! ### Event-shape helpers used by the claims -/

/-- Terminal events: error or done. -/
def isTerminal : Event → Bool
  | Event.error _ => true
  | Event.done _ => true
  | _ => false

/-- Chunk events. -/
def isChunkEv : Event → Bool
  | Event.chunk _ _ => true
  | _ => false

/-- Tags events. -/
def isTagsEv : Event → Bool
  | Event.tags _ => true
  | _ => false

/-- Done events. -/
def isDoneEv : Event → Bool
  | Event.done _ => true
  | _ => false

/-- Error events. -/
def isErrorEv : Event → Bool
  | Event.error _ => true
  | _ => false

/-- Zero or more chunk events followed by exactly one terminal event. -/
def chunksThenTerminal : List Event → Bool
  | [] => false
  | [e] => isTerminal e
  | Event.chunk _ _ :: rest => chunksThenTerminal rest
  | _ => false

/-- The phase-order discipline claimed for a session's event sequence:
at most one leading tags event, then chunk events, then exactly one
terminal event. -/
def phaseOrdered (evs : List Event) : Bool :=
  match evs with
  | Event.tags _ :: rest => chunksThenTerminal rest
  | _ => chunksThenTerminal evs

/-- The non-empty contents the fragment loop extracts, in order. -/
def chunkContents (chunks : List Chunk) : List String :=
  chunks.filterMap (fun ch =>
    match contentOf ch with
    | some c => if c ≠ "" then some c else none
    | none => none)

/-- The chunk-event sequence promised by the spec: one event per
content fragment, carrying the fragment and the whole text so far. -/
def chunkEventsFrom (acc : String) : List String → List Event
  | [] => []
  | c :: rest => Event.chunk c (acc ++ c) :: chunkEventsFrom (acc ++ c) rest

/-- Concatenation of a list of strings, the spec-side view of the
relay's text accumulation. -/
def strConcat : List String → String
  | [] => ""
  | c :: rest => c ++ strConcat rest

/-- One upstream fragment carrying the content `s`, for witnesses. -/
def mkContentChunk (s : String) : Chunk := ⟨[⟨some ⟨some s⟩⟩]⟩

/-- The two internal cache dicts agree on keys (in order) and respect
the capacity bound. -/
def CacheInv (maxSize : Nat) (st : CacheState) : Prop :=
  dkeys st.cache = dkeys st.cacheTtl ∧ st.cache.length ≤ maxSize

/-! ### Dictionary lemmas -/

theorem dkeys_dset {β : Type} (d : Dict β) (k : String) (v : β) :
    dkeys (dset d k v) = if dmem d k then dkeys d else dkeys d ++ [k] := by
  induction d with
  | nil => simp [dset, dkeys, dmem]
  | cons p rest ih =>
      simp only [dkeys, dmem] at ih
      by_cases h : p.1 = k
      · simp [dset, h, dkeys, dmem]
      · have hb : (p.1 == k) = false := by simp [h]
        cases hm : (rest.any fun q => q.1 == k) <;>
          simp [dset, h, hb, dkeys, dmem, hm] <;> rw [ih] <;> simp [hm]

theorem length_dset {β : Type} (d : Dict β) (k : String) (v : β) :
    (dset d k v).length = if dmem d k then d.length else d.length + 1 := by
  induction d with
  | nil => simp [dset, dmem]
  | cons p rest ih =>
      simp only [dmem] at ih
      by_cases h : p.1 = k
      · simp [dset, h, dmem]
      · have hb : (p.1 == k) = false := by simp [h]
        cases hm : (rest.any fun q => q.1 == k) <;>
          simp [dset, h, hb, dmem, hm] <;> rw [ih] <;> simp [hm]

theorem dkeys_ddel {β : Type} (d : Dict β) (k : String) :
    dkeys (ddel d k) = (dkeys d).filter (fun s => s != k) := by
  unfold ddel dkeys
  rw [List.filter_map]
  rfl

theorem dget?_cons_self {β : Type} (k : String) (v : β) (rest : Dict β) :
    dget? ((k, v) :: rest) k = some v := by
  unfold dget?
  rw [List.find?_cons_of_pos _ (by simp)]
  rfl

theorem dmem_eq_keys {β : Type} (d : Dict β) (k : String) :
    dmem d k = (dkeys d).any (fun s => s == k) := by
  induction d with
  | nil => rfl
  | cons p rest ih => simp [dmem, dkeys, List.any_cons] at ih ⊢; rw [ih]

theorem length_ddel_le {β : Type} (d : Dict β) (k : String) :
    (ddel d k).length ≤ d.length :=
  List.length_filter_le _ _

theorem length_ddel_lt {β : Type} (d : Dict β) (k : String)
    (h : k ∈ dkeys d) : (ddel d k).length < d.length := by
  unfold ddel
  rw [List.length_filter_lt_length_iff_exists]
  rcases List.mem_map.mp h with ⟨p, hp, hk⟩
  exact ⟨p, hp, by simp [bne, hk]⟩

theorem dkeys_foldl_ddel (ks : List String) {β γ : Type}
    (c : Dict β) (t : Dict γ) (h : dkeys c = dkeys t) :
    dkeys (ks.foldl ddel c) = dkeys (ks.foldl ddel t) := by
  induction ks generalizing c t with
  | nil => exact h
  | cons k ks ih =>
      simp only [List.foldl_cons]
      exact ih _ _ (by rw [dkeys_ddel, dkeys_ddel, h])

theorem length_foldl_ddel_le (ks : List String) {β : Type} (c : Dict β) :
    (ks.foldl ddel c).length ≤ c.length := by
  induction ks generalizing c with
  | nil => simp
  | cons k ks ih =>
      simp only [List.foldl_cons]
      exact le_trans (ih _) (length_ddel_le c k)

theorem dminSnd_eq_none (d : Dict Nat) (h : dminSnd d = none) : d = [] := by
  cases d with
  | nil => rfl
  | cons p rest =>
      rw [dminSnd] at h
      cases hr : dminSnd rest with
      | none => rw [hr] at h; simp at h
      | some m =>
          rw [hr] at h
          by_cases hle : p.2 ≤ m.2 <;> simp [hle] at h

theorem dminSnd_mem (d : Dict Nat) (p : String × Nat)
    (h : dminSnd d = some p) : p ∈ d := by
  induction d generalizing p with
  | nil => simp [dminSnd] at h
  | cons q rest ih =>
      rw [dminSnd] at h
      cases hr : dminSnd rest with
      | none => rw [hr] at h; simp at h; simp [h]
      | some m =>
          rw [hr] at h
          by_cases hle : q.2 ≤ m.2
          · simp [hle] at h; simp [h]
          · simp [hle] at h
            exact List.mem_cons_of_mem _ (ih _ (hr.trans (congrArg some h)))

theorem dminSnd_le (d : Dict Nat) (p : String × Nat)
    (h : dminSnd d = some p) : ∀ q ∈ d, p.2 ≤ q.2 := by
  induction d generalizing p with
  | nil => simp [dminSnd] at h
  | cons q rest ih =>
      rw [dminSnd] at h
      cases hr : dminSnd rest with
      | none =>
          rw [hr] at h
          have hrest := dminSnd_eq_none rest hr
          subst hrest
          simp at h
          subst h
          simp
      | some m =>
          rw [hr] at h
          intro x hx
          by_cases hle : q.2 ≤ m.2 <;> simp [hle] at h
          · subst h
            rcases List.mem_cons.mp hx with rfl | hx
            · exact le_refl _
            · exact le_trans hle (ih m hr x hx)
          · subst h
            rcases List.mem_cons.mp hx with rfl | hx
            · exact le_of_lt (lt_of_not_le hle)
            · exact ih m hr x hx

theorem dminSnd_isSome (d : Dict Nat) (h : d ≠ []) :
    (dminSnd d).isSome := by
  cases d with
  | nil => simp at h
  | cons p rest =>
      rw [dminSnd]
      cases dminSnd rest with
      | none => rfl
      | some m => by_cases hle : p.2 ≤ m.2 <;> simp [hle]

/-! ### Cache-state lemmas -/

theorem lengths_eq_of_keys (st : CacheState)
    (h : dkeys st.cache = dkeys st.cacheTtl) :
    st.cache.length = st.cacheTtl.length := by
  have hl := congrArg List.length h
  simpa [dkeys] using hl

theorem purge_keys_aligned (now : Nat) (st : CacheState)
    (h : dkeys st.cache = dkeys st.cacheTtl) :
    dkeys (purge_expired now st).cache =
      dkeys (purge_expired now st).cacheTtl :=
  dkeys_foldl_ddel _ _ _ h

theorem purge_length_le (now : Nat) (st : CacheState) :
    (purge_expired now st).cache.length ≤ st.cache.length :=
  length_foldl_ddel_le _ _

theorem purge_of_fresh (now : Nat) (st : CacheState)
    (h : ∀ p ∈ st.cacheTtl, now < p.2) : purge_expired now st = st := by
  have hf : st.cacheTtl.filter (fun p => p.2 ≤ now) = [] := by
    rw [List.filter_eq_nil_iff]
    intro p hp
    have := h p hp
    simp
    omega
  simp only [purge_expired, hf]
  rfl

theorem local_get_inv (maxSize : Nat) (key : String) (now : Nat)
    (st : CacheState) (h : CacheInv maxSize st) :
    CacheInv maxSize (local_get key now st).2 := by
  obtain ⟨hk, hl⟩ := h
  cases hv : dget? st.cache key with
  | none =>
      simp only [local_get, hv]
      exact ⟨hk, hl⟩
  | some v =>
      by_cases ht : now < (dget? st.cacheTtl key).getD 0
      · simp only [local_get, hv, ht, if_true, ite_true]
        exact ⟨hk, hl⟩
      · simp only [local_get, hv, ht, if_false, ite_false]
        exact ⟨by rw [dkeys_ddel, dkeys_ddel, hk],
          le_trans (length_ddel_le _ _) hl⟩

theorem dset_inv (maxSize : Nat) (k v : String) (e : Nat) (st : CacheState)
    (h : CacheInv maxSize st) (hlt : st.cache.length < maxSize) :
    CacheInv maxSize ⟨dset st.cache k v, dset st.cacheTtl k e⟩ := by
  obtain ⟨hk, _⟩ := h
  have hm : dmem st.cache k = dmem st.cacheTtl k := by
    rw [dmem_eq_keys, dmem_eq_keys, hk]
  constructor
  · show dkeys (dset st.cache k v) = dkeys (dset st.cacheTtl k e)
    rw [dkeys_dset, dkeys_dset, hk, hm]
  · show (dset st.cache k v).length ≤ maxSize
    rw [length_dset]
    by_cases hmem : dmem st.cache k <;> simp [hmem] <;> omega

theorem local_set_inv (maxSize : Nat) (hmax : 1 ≤ maxSize)
    (key payload : String)
    (expiry now : Nat) (st : CacheState) (h : CacheInv maxSize st) :
    CacheInv maxSize (local_set maxSize key payload expiry now st) := by
  obtain ⟨hk, hl⟩ := h
  simp only [local_set]
  by_cases hcap : maxSize ≤ st.cache.length
  · rw [if_pos hcap]
    have hk' := purge_keys_aligned now st hk
    have hl' : (purge_expired now st).cache.length ≤ maxSize :=
      le_trans (purge_length_le now st) hl
    by_cases hcap' : maxSize ≤ (purge_expired now st).cache.length
    · rw [if_pos hcap']
      have hne : (purge_expired now st).cacheTtl ≠ [] := by
        intro h0
        have hle := lengths_eq_of_keys _ hk'
        rw [h0] at hle
        simp only [List.length_nil] at hle
        omega
      cases hmin : dminSnd (purge_expired now st).cacheTtl with
      | none => exact absurd (dminSnd_eq_none _ hmin) hne
      | some p =>
          simp only [hmin]
          have hkey : p.1 ∈ dkeys (purge_expired now st).cache := by
            rw [hk']
            exact List.mem_map_of_mem Prod.fst (dminSnd_mem _ _ hmin)
          have hlt : (ddel (purge_expired now st).cache p.1).length <
              maxSize :=
            lt_of_lt_of_le (length_ddel_lt _ _ hkey) hl'
          exact dset_inv maxSize key payload expiry
            ⟨ddel (purge_expired now st).cache p.1,
             ddel (purge_expired now st).cacheTtl p.1⟩
            ⟨by show dkeys (ddel _ _) = dkeys (ddel _ _)
                rw [dkeys_ddel, dkeys_ddel, hk'],
             le_of_lt hlt⟩ hlt
    · rw [if_neg hcap']
      exact dset_inv maxSize key payload expiry _ ⟨hk', hl'⟩
        (lt_of_not_le hcap')
  · rw [if_neg hcap]
    exact dset_inv maxSize key payload expiry st ⟨hk, hl⟩
      (lt_of_not_le hcap)

/-! ### String and stream lemmas -/

theorem length_pos_of_ne_empty {s : String} (h : s ≠ "") : 0 < s.length := by
  cases s with
  | mk data =>
      cases data with
      | nil => exact absurd rfl h
      | cons c cs => exact Nat.succ_pos cs.length

theorem append_ne_empty_left {s : String} (t : String) (h : s ≠ "") :
    s ++ t ≠ "" := by
  intro he
  have hl := congrArg String.length he
  rw [String.length_append] at hl
  have h0 : ("" : String).length = 0 := rfl
  rw [h0] at hl
  have := length_pos_of_ne_empty h
  omega

theorem chunkContents_cons (ch : Chunk) (rest : List Chunk) :
    chunkContents (ch :: rest) =
      (match contentOf ch with
        | some c => if c ≠ "" then c :: chunkContents rest else chunkContents rest
        | none => chunkContents rest) := by
  cases h : contentOf ch with
  | none => simp [chunkContents, h]
  | some c => by_cases hc : c = "" <;> simp [chunkContents, h, hc]

theorem mem_chunkContents_ne_empty (chunks : List Chunk) :
    ∀ c ∈ chunkContents chunks, c ≠ "" := by
  intro c hc
  rcases List.mem_filterMap.mp hc with ⟨ch, _, hch⟩
  revert hch
  cases contentOf ch with
  | none => simp
  | some c' => by_cases h : c' = "" <;> simp [h] <;> intro he <;> subst he <;> exact h

/-- The fragment loop, described: events are the promised chunk-event
sequence, the final text is the accumulated prefix plus all contents,
and the count is the number of fragments of any kind. -/
theorem processChunks_eq (chunks : List Chunk) (acc : String) (cnt : Nat) :
    processChunks chunks acc cnt =
      (chunkEventsFrom acc (chunkContents chunks),
       acc ++ strConcat (chunkContents chunks),
       cnt + chunks.length) := by
  induction chunks generalizing acc cnt with
  | nil => simp [processChunks, chunkContents, chunkEventsFrom, strConcat]
  | cons ch rest ih =>
      rw [processChunks, chunkContents_cons]
      cases h : contentOf ch with
      | none =>
          rw [ih]
          simp [Nat.add_comm, Nat.add_left_comm]
      | some c =>
          by_cases hc : c = ""
          · simp only [hc, ne_eq, not_true_eq_false, if_false, ite_false]
            rw [ih]
            simp [Nat.add_comm, Nat.add_left_comm]
          · simp only [ne_eq, hc, not_false_eq_true, if_true, ite_true]
            rw [ih]
            simp [chunkEventsFrom, strConcat, String.append_assoc,
              Nat.add_comm, Nat.add_left_comm]

theorem chunkEventsFrom_all_chunks (l : List String) (acc : String) :
    ∀ e ∈ chunkEventsFrom acc l, isChunkEv e = true := by
  induction l generalizing acc with
  | nil => simp [chunkEventsFrom]
  | cons c rest ih =>
      intro e he
      rcases List.mem_cons.mp he with rfl | he
      · rfl
      · exact ih _ e he

theorem chunksThenTerminal_append (evs : List Event) (t : Event)
    (hevs : ∀ e ∈ evs, isChunkEv e = true) (ht : isTerminal t = true) :
    chunksThenTerminal (evs ++ [t]) = true := by
  induction evs with
  | nil => simpa [chunksThenTerminal]
  | cons e evs ih =>
      have he : isChunkEv e = true := hevs e (List.mem_cons_self _ _)
      cases e with
      | chunk c txt =>
          have hrec : chunksThenTerminal (evs ++ [t]) = true :=
            ih (fun x hx => hevs x (List.mem_cons_of_mem _ hx))
          rw [List.cons_append]
          rcases hq : evs ++ [t] with _ | ⟨a, l2⟩
          · exact absurd hq (by simp)
          · rw [hq] at hrec
            simpa [chunksThenTerminal] using hrec
      | tags ts => simp [isChunkEv] at he
      | error m => simp [isChunkEv] at he
      | done txt => simp [isChunkEv] at he

theorem ctt_decomp (l : List Event) (h : chunksThenTerminal l = true) :
    ∃ evs t, l = evs ++ [t] ∧ isTerminal t = true ∧
      ∀ e ∈ evs, isChunkEv e = true := by
  induction l with
  | nil => simp [chunksThenTerminal] at h
  | cons e rest ih =>
      cases rest with
      | nil =>
          refine ⟨[], e, rfl, ?_, by simp⟩
          rw [chunksThenTerminal] at h
          exact h
      | cons e2 rest2 =>
          cases e with
          | chunk c txt =>
              simp only [chunksThenTerminal] at h
              rcases ih h with ⟨evs, t, heq, ht, hall⟩
              refine ⟨Event.chunk c txt :: evs, t, by rw [heq]; rfl, ht, ?_⟩
              intro x hx
              rcases List.mem_cons.mp hx with rfl | hx
              · rfl
              · exact hall x hx
          | tags ts => simp [chunksThenTerminal] at h
          | error m => simp [chunksThenTerminal] at h
          | done txt => simp [chunksThenTerminal] at h

theorem generate_events_ctt (g : GenCallOutcome) :
    chunksThenTerminal (generate_events g) = true := by
  cases g with
  | error e => cases e <;> rfl
  | ok pr =>
      rcases pr with ⟨chunks, iterFail⟩
      cases iterFail with
      | some emsg =>
          simp only [generate_events]
          rw [processChunks_eq]
          exact chunksThenTerminal_append _ _
            (chunkEventsFrom_all_chunks _ _) rfl
      | none =>
          simp only [generate_events]
          rw [processChunks_eq]
          split
          · split
            · exact chunksThenTerminal_append _ _
                (chunkEventsFrom_all_chunks _ _) rfl
            · exact chunksThenTerminal_append _ _
                (chunkEventsFrom_all_chunks _ _) rfl
          · exact chunksThenTerminal_append _ _
              (chunkEventsFrom_all_chunks _ _) rfl

theorem phaseOrdered_of_ctt (evs : List Event)
    (h : chunksThenTerminal evs = true) : phaseOrdered evs = true := by
  cases evs with
  | nil => simp [chunksThenTerminal] at h
  | cons e rest =>
      cases e with
      | tags ts =>
          exfalso
          cases rest with
          | nil => simp [chunksThenTerminal, isTerminal] at h
          | cons e2 r2 => simp [chunksThenTerminal] at h
      | chunk c txt => exact h
      | error m => exact h
      | done txt => exact h

theorem resolve_tags_fst (tagsCall : TagsCallOutcome) (tags : List String) :
    (resolve_tags tagsCall tags).1 = [] ∨
      ∃ ts, (resolve_tags tagsCall tags).1 = [Event.tags ts] := by
  unfold resolve_tags
  by_cases ht : tags = []
  · simp only [ht, if_true, ite_true]
    cases tagsCall with
    | error u => left; rfl
    | ok resp =>
        cases hc : resp.choices with
        | nil => left; simp [hc]
        | cons c cs =>
            cases hm : c.message.content with
            | none => left; simp [hc, hm]
            | some content =>
                by_cases hcc : content = ""
                · left; simp [hc, hm, hcc]
                · right
                  refine ⟨(pySplitCommaTags (pyStrip content)).take 10, ?_⟩
                  simp [hc, hm, hcc]
  · simp [ht]

theorem stream_eq_append (tagsCall : TagsCallOutcome) (genCall : GenCallOutcome)
    (book_name : String) (tags : List String) :
    stream_recommendations tagsCall genCall book_name tags =
      (resolve_tags tagsCall tags).1 ++ generate_events genCall := rfl

theorem str_empty_append (s : String) : "" ++ s = s := by simp

/-! ### Order properties of the embedded string comparison -/

theorem charToNat_inj {a b : Char} (h : a.toNat = b.toNat) : a = b :=
  Char.ext (UInt32.ext h)

theorem charListLeb_total (as bs : List Char) :
    charListLeb as bs = true ∨ charListLeb bs as = true := by
  induction as generalizing bs with
  | nil => left; rfl
  | cons a as ih =>
      cases bs with
      | nil => right; rfl
      | cons b bs =>
          by_cases h1 : a.toNat < b.toNat
          · left; simp [charListLeb, h1]
          · by_cases h2 : b.toNat < a.toNat
            · right; simp [charListLeb, h1, h2]
            · rcases ih bs with h | h
              · left; simp [charListLeb, h1, h2, h]
              · right; simp [charListLeb, h1, h2, h]

theorem charListLeb_antisymm (as bs : List Char)
    (h1 : charListLeb as bs = true) (h2 : charListLeb bs as = true) :
    as = bs := by
  induction as generalizing bs with
  | nil =>
      cases bs with
      | nil => rfl
      | cons b bs => simp [charListLeb] at h2
  | cons a as ih =>
      cases bs with
      | nil => simp [charListLeb] at h1
      | cons b bs =>
          by_cases hab : a.toNat < b.toNat
          · have hba : ¬b.toNat < a.toNat := by omega
            simp [charListLeb, hab, hba] at h2
          · by_cases hba : b.toNat < a.toNat
            · simp [charListLeb, hab, hba] at h1
            · simp only [charListLeb, hab, hba, if_false, ite_false] at h1 h2
              have he : a = b := charToNat_inj (by omega)
              rw [he, ih bs h1 h2]

theorem charListLeb_trans (as bs cs : List Char)
    (h1 : charListLeb as bs = true) (h2 : charListLeb bs cs = true) :
    charListLeb as cs = true := by
  induction as generalizing bs cs with
  | nil => rfl
  | cons a as ih =>
      cases bs with
      | nil => simp [charListLeb] at h1
      | cons b bs =>
          cases cs with
          | nil => simp [charListLeb] at h2
          | cons c cs =>
              by_cases hab : a.toNat < b.toNat <;>
                by_cases hbc : b.toNat < c.toNat
              · simp [charListLeb, show a.toNat < c.toNat by omega]
              · by_cases hcb : c.toNat < b.toNat
                · simp [charListLeb, hbc, hcb] at h2
                · simp [charListLeb, show a.toNat < c.toNat by omega]
              · by_cases hba : b.toNat < a.toNat
                · simp [charListLeb, hab, hba] at h1
                · simp [charListLeb, show a.toNat < c.toNat by omega]
              · by_cases hba : b.toNat < a.toNat
                · simp [charListLeb, hab, hba] at h1
                · by_cases hcb : c.toNat < b.toNat
                  · simp [charListLeb, hbc, hcb] at h2
                  · have hac : ¬a.toNat < c.toNat := by omega
                    have hca : ¬c.toNat < a.toNat := by omega
                    simp only [charListLeb, hab, hba, hbc, hcb, hac, hca,
                      if_false, ite_false] at h1 h2 ⊢
                    exact ih bs cs h1 h2

/-! ### Claim C1 -/

set_option maxRecDepth 8000 in
/-- C1, counterexample: the two tag lists `["a"]` and `["a", "a"]`
denote the same tag set after normalization (their de-duplicated
normalized forms agree), yet `get_cache_key` maps them to different
keys, because the implementation sorts the normalized tags without
de-duplicating them. -/
theorem c1_duplicate_tags_counterexample :
    (normTags ["a"]).dedup = (normTags ["a", "a"]).dedup ∧
    get_cache_key "x" ["a"] ≠ get_cache_key "x" ["a", "a"] := by
  constructor
  · rfl
  · decide

/-- C1, amended: for every book name and any two tag lists whose truthy
elements yield the same multiset of lower-cased, trimmed tags (any
permutation, casing or whitespace variation — but not duplication),
`get_cache_key` returns the same cache key; tags are each lower-cased,
trimmed and sorted (without de-duplication) before being combined with
the normalized name and hashed. -/
theorem c1_key_invariant_under_tag_permutation (book_name : String)
    (tagsA tagsB : List String)
    (h : (normTags tagsA).Perm (normTags tagsB)) :
    get_cache_key book_name tagsA = get_cache_key book_name tagsB := by
  haveI : IsTotal String strLe := ⟨fun a b => charListLeb_total a.data b.data⟩
  haveI : IsTrans String strLe :=
    ⟨fun a b c h1 h2 => charListLeb_trans a.data b.data c.data h1 h2⟩
  haveI : IsAntisymm String strLe :=
    ⟨fun a b h1 h2 => by
      have hd := charListLeb_antisymm a.data b.data h1 h2
      cases a with
      | mk da =>
          cases b with
          | mk db => exact congrArg String.mk hd⟩
  have hs : List.insertionSort strLe (normTags tagsA) =
      List.insertionSort strLe (normTags tagsB) :=
    List.eq_of_perm_of_sorted
      (((List.perm_insertionSort _ _).trans h).trans
        (List.perm_insertionSort _ _).symm)
      (List.sorted_insertionSort _ _) (List.sorted_insertionSort _ _)
  unfold get_cache_key
  rw [hs]

/-- C1, witness: `["B ", "a"]` and `["a", " b"]` normalize to the same
tag multiset, and the theorem yields equal cache keys for them. -/
theorem c1_key_invariant_witness :
    (normTags ["B ", "a"]).Perm (normTags ["a", " b"]) ∧
    get_cache_key "x" ["B ", "a"] = get_cache_key "x" ["a", " b"] :=
  ⟨by decide, c1_key_invariant_under_tag_permutation "x" _ _ (by decide)⟩

/-! ### Claim C2 -/

set_option maxRecDepth 8000 in
/-- C2, counterexample: with the networked backend configured and the
networked read succeeding with an explicit miss (`None`), `get_cached`
does not return that miss — it consults the local in-memory backend and
returns the locally cached payload. -/
theorem c2_miss_falls_through_counterexample :
    get_cached (some (Except.ok none)) "b" [] none 0
        ⟨[(get_cache_key "b" [], "local-payload")],
         [(get_cache_key "b" [], 100)]⟩ =
      (some "local-payload",
        ⟨[(get_cache_key "b" [], "local-payload")],
         [(get_cache_key "b" [], 100)]⟩) ∧
    some "local-payload" ≠ (none : Option String) := by
  constructor
  · decide
  · simp

/-- C2, amended: when the networked backend is configured, `get`
attempts it first, and on a successful networked read that is a hit
(a truthy payload) it returns that payload without consulting the local
in-memory backend; on an explicit miss, on a falsy payload, or when the
networked read raises, the local backend is consulted. -/
theorem c2_networked_read_first (book_name : String) (tags : List String)
    (ttlArg : Option Nat) (now : Nat) (st : CacheState) (d : String)
    (hd : d ≠ "") :
    get_cached (some (Except.ok (some d))) book_name tags ttlArg now st =
      (some d, st) ∧
    get_cached (some (Except.ok none)) book_name tags ttlArg now st =
      local_get (get_cache_key book_name tags) now st ∧
    get_cached (some (Except.error ())) book_name tags ttlArg now st =
      local_get (get_cache_key book_name tags) now st ∧
    get_cached none book_name tags ttlArg now st =
      local_get (get_cache_key book_name tags) now st := by
  refine ⟨?_, rfl, rfl, rfl⟩
  simp [get_cached, hd]

/-- C2, witness: the theorem applied at a concrete hit. -/
theorem c2_networked_read_first_witness :
    ("v" : String) ≠ "" ∧
    get_cached (some (Except.ok (some "v"))) "b" [] none 0 ⟨[], []⟩ =
      (some "v", ⟨[], []⟩) :=
  ⟨by decide,
   (c2_networked_read_first "b" [] none 0 ⟨[], []⟩ "v" (by decide)).1⟩

/-! ### Claim C9 -/

/-- C9: for upstream-call failure kinds (rate limit, timeout, provider
error) the classifier produces the fixed safe message of that kind,
independent of the exception's text, both in `handle_openai_error` and
in the relay's inlined handlers; only the mid-stream iteration-failure
handler embeds the underlying exception text in its message. -/
theorem c9_safe_messages_independent_of_exception_text :
    (∀ m : String,
      handle_openai_error (PyError.rateLimitError m) =
        format_sse_error rateLimitMsg ∧
      handle_openai_error (PyError.apiTimeoutError m) =
        format_sse_error timeoutMsg ∧
      handle_openai_error (PyError.apiError m) =
        format_sse_error apiErrorMsg) ∧
    (∀ (m1 m2 : String) (tagsCall : TagsCallOutcome) (book_name : String)
        (tags : List String),
      stream_recommendations tagsCall (Except.error (GenError.apiError m1))
          book_name tags =
        stream_recommendations tagsCall (Except.error (GenError.apiError m2))
          book_name tags) ∧
    (∀ m : String,
      handle_stream_error (PyError.other m) =
        format_sse_error (streamingErrorMsg m)) ∧
    (∀ (chunks : List Chunk) (m : String),
      generate_events (Except.ok (chunks, some m)) =
        (processChunks chunks "" 0).1 ++
          [Event.error (streamingErrorMsg m)]) :=
  ⟨fun _ => ⟨rfl, rfl, rfl⟩, fun _ _ _ _ _ => rfl, fun _ => rfl,
   fun _ _ => rfl⟩

/-! ### Claim C5 -/

/-- C5: for every upstream fragment sequence whose iteration completes
without failure and which carries at least one non-empty content, the
stream emits, in order, one chunk event per content-bearing fragment —
whose chunk field is that content and whose text field is the
concatenation of all content so far — followed by exactly one done
event carrying the full concatenation; fragments without content are
skipped. (Stated with caller-provided tags, so no tags event occurs.) -/
theorem c5_chunk_then_done_stream (tagsCall : TagsCallOutcome)
    (chunks : List Chunk) (book_name : String) (tags : List String)
    (htags : tags ≠ []) (hcontent : chunkContents chunks ≠ []) :
    stream_recommendations tagsCall (Except.ok (chunks, none))
        book_name tags =
      chunkEventsFrom "" (chunkContents chunks) ++
        [Event.done (strConcat (chunkContents chunks))] := by
  rw [stream_eq_append]
  have hres : (resolve_tags tagsCall tags).1 = [] := by
    unfold resolve_tags
    simp [htags]
  rw [hres, List.nil_append]
  have hacc : ("" : String) ++ strConcat (chunkContents chunks) ≠ "" := by
    rw [str_empty_append]
    cases hcc : chunkContents chunks with
    | nil => exact absurd hcc hcontent
    | cons c rest =>
        rw [strConcat]
        exact append_ne_empty_left _
          (mem_chunkContents_ne_empty chunks c
            (by rw [hcc]; exact List.mem_cons_self _ _))
  simp only [generate_events, processChunks_eq]
  rw [if_neg hacc, str_empty_append]

/-- C5, witness: the fragment sequence `["A", "B", "C"]` produces
exactly the four promised events. -/
theorem c5_chunk_then_done_stream_witness :
    (["t"] : List String) ≠ [] ∧
    chunkContents [mkContentChunk "A", mkContentChunk "B",
      mkContentChunk "C"] ≠ [] ∧
    stream_recommendations (Except.error ())
        (Except.ok ([mkContentChunk "A", mkContentChunk "B",
          mkContentChunk "C"], none)) "x" ["t"] =
      [Event.chunk "A" "A", Event.chunk "B" "AB", Event.chunk "C" "ABC",
       Event.done "ABC"] := by
  refine ⟨by decide, by decide, ?_⟩
  rw [c5_chunk_then_done_stream (Except.error ()) _ "x" ["t"]
    (by decide) (by decide)]
  decide

/-! ### Claim C6 -/

/-- C6: every event sequence of the relay follows the strict phase
order — at most one leading tags event, then zero or more chunk events,
then exactly one terminal (done or error) event with nothing after it;
and a rate-limit failure when initiating the generation call yields
exactly one error event (carrying the rate-limit-safe message) and no
chunk events. -/
theorem c6_strict_phase_order (tagsCall : TagsCallOutcome)
    (genCall : GenCallOutcome) (book_name : String) (tags : List String) :
    phaseOrdered (stream_recommendations tagsCall genCall book_name tags) =
      true ∧
    (stream_recommendations tagsCall (Except.error GenError.rateLimitError)
        book_name tags).filter isChunkEv = [] ∧
    (stream_recommendations tagsCall (Except.error GenError.rateLimitError)
        book_name tags).filter isTerminal = [Event.error rateLimitMsg] := by
  have hg := generate_events_ctt genCall
  have hres := resolve_tags_fst tagsCall tags
  refine ⟨?_, ?_, ?_⟩
  · rw [stream_eq_append]
    rcases hres with h0 | ⟨ts, h1⟩
    · rw [h0, List.nil_append]
      exact phaseOrdered_of_ctt _ hg
    · rw [h1]
      exact hg
  · rw [stream_eq_append, List.filter_append]
    rcases hres with h0 | ⟨ts, h1⟩
    · rw [h0]
      simp [generate_events, isChunkEv]
    · rw [h1]
      simp [generate_events, isChunkEv]
  · rw [stream_eq_append, List.filter_append]
    rcases hres with h0 | ⟨ts, h1⟩
    · rw [h0]
      simp [generate_events, isTerminal]
    · rw [h1]
      simp [generate_events, isTerminal]

/-! ### Claim C7 -/

/-- C7: when fragment iteration completes with no accumulated content,
the stream emits no done event and exactly one error event; with zero
fragments of any kind the error carries the no-chunks
(model-availability) message, and with fragments but no content it
carries the empty-response message (which embeds the fragment count). -/
theorem c7_empty_stream_errors (tagsCall : TagsCallOutcome)
    (chunks : List Chunk) (book_name : String) (tags : List String)
    (hempty : chunkContents chunks = []) :
    (stream_recommendations tagsCall (Except.ok (chunks, none))
        book_name tags).filter isDoneEv = [] ∧
    (chunks = [] →
      (stream_recommendations tagsCall (Except.ok (chunks, none))
          book_name tags).filter isErrorEv = [Event.error noChunksMsg]) ∧
    (chunks ≠ [] →
      (stream_recommendations tagsCall (Except.ok (chunks, none))
          book_name tags).filter isErrorEv =
        [Event.error (emptyResponseMsg chunks.length)]) := by
  have hgen : generate_events (Except.ok (chunks, none)) =
      if chunks.length = 0 then [Event.error noChunksMsg]
      else [Event.error (emptyResponseMsg chunks.length)] := by
    simp only [generate_events, processChunks_eq, hempty]
    have h0 : ("" : String) ++ strConcat [] = "" := rfl
    rw [h0]
    simp [chunkEventsFrom]
  have hres := resolve_tags_fst tagsCall tags
  refine ⟨?_, ?_, ?_⟩
  · rw [stream_eq_append, List.filter_append, hgen]
    rcases hres with h0 | ⟨ts, h1⟩
    · rw [h0]
      by_cases hl : chunks.length = 0 <;> simp [hl, isDoneEv]
    · rw [h1]
      by_cases hl : chunks.length = 0 <;> simp [hl, isDoneEv, isTagsEv]
  · intro hc
    subst hc
    rw [stream_eq_append, List.filter_append, hgen]
    rcases hres with h0 | ⟨ts, h1⟩
    · rw [h0]
      simp [isErrorEv]
    · rw [h1]
      simp [isErrorEv]
  · intro hc
    have hl : chunks.length ≠ 0 := fun h => hc (List.length_eq_zero.mp h)
    rw [stream_eq_append, List.filter_append, hgen]
    rcases hres with h0 | ⟨ts, h1⟩
    · rw [h0]
      simp [hl, isErrorEv]
    · rw [h1]
      simp [hl, isErrorEv]

/-- C7, witness: a single fragment with no choices counts as received
but content-free, so the empty-response error for one chunk is the only
terminal and no done event occurs; with no fragments at all the
no-chunks error is emitted. -/
theorem c7_empty_stream_errors_witness :
    chunkContents [(⟨[]⟩ : Chunk)] = [] ∧
    (stream_recommendations (Except.error ())
        (Except.ok ([(⟨[]⟩ : Chunk)], none)) "x" ["t"]).filter isErrorEv =
      [Event.error (emptyResponseMsg 1)] ∧
    chunkContents ([] : List Chunk) = [] ∧
    (stream_recommendations (Except.error ())
        (Except.ok (([] : List Chunk), none)) "x" ["t"]).filter isErrorEv =
      [Event.error noChunksMsg] := by
  refine ⟨by decide, ?_, by decide, ?_⟩
  · exact ((c7_empty_stream_errors (Except.error ()) [⟨[]⟩] "x" ["t"]
      (by decide)).2.2 (by decide))
  · exact ((c7_empty_stream_errors (Except.error ()) [] "x" ["t"]
      (by decide)).2.1 rfl)

/-! ### Claim C8 -/

/-- C8: when the tag-resolution sub-call raises (any exception), the
relay emits no event for the tag failure and proceeds with an empty tag
list: its whole output is the generation phase's output, which contains
no tags event and always ends in exactly one terminal event — a done
event or a generation-phase error. -/
theorem c8_tag_failure_is_not_fatal (genCall : GenCallOutcome)
    (book_name : String) :
    stream_recommendations (Except.error ()) genCall book_name [] =
      generate_events genCall ∧
    (stream_recommendations (Except.error ()) genCall book_name []).filter
      isTagsEv = [] ∧
    ∃ evs t, generate_events genCall = evs ++ [t] ∧ isTerminal t = true ∧
      ∀ e ∈ evs, isChunkEv e = true := by
  have h1 : stream_recommendations (Except.error ()) genCall book_name [] =
      generate_events genCall := by
    rw [stream_eq_append]
    have h0 : (resolve_tags (Except.error ()) ([] : List String)).1 = [] := rfl
    rw [h0, List.nil_append]
  have hdec := ctt_decomp _ (generate_events_ctt genCall)
  refine ⟨h1, ?_, hdec⟩
  rw [h1]
  rcases hdec with ⟨evs, t, heq, ht, hall⟩
  rw [heq, List.filter_append]
  have he : evs.filter isTagsEv = [] := by
    rw [List.filter_eq_nil_iff]
    intro e hme
    have hc := hall e hme
    cases e with
    | chunk c txt => simp [isTagsEv]
    | tags ts => simp [isChunkEv] at hc
    | error m => simp [isChunkEv] at hc
    | done txt => simp [isChunkEv] at hc
  have ht2 : List.filter isTagsEv [t] = [] := by
    cases t with
    | chunk c txt => simp [isTerminal] at ht
    | tags ts => simp [isTerminal] at ht
    | error m => simp [isTagsEv]
    | done txt => simp [isTagsEv]
  rw [he, ht2, List.nil_append]

/-! ### Claim C3 -/

/-- C3: when a set falls back to the local store (networked write
unavailable or failing) and the store is at its capacity limit, then:
with no already-expired entries, exactly one entry is evicted — the one
whose stored expiry is minimal among all current entries (the first
such in insertion order) — and the new entry is then inserted into both
dicts; and whenever the expired-entry purge already brings the store
below capacity, no further eviction happens — the new entry is inserted
into the purged store. -/
theorem c3_capacity_eviction (maxSize : Nat) (redis : RedisSetOutcome)
    (book_name : String) (tags : List String) (result : String)
    (ttlArg : Option Nat) (now : Nat) (st : CacheState)
    (hmax : 1 ≤ maxSize)
    (hredis : redis = none ∨ redis = some (Except.error ()))
    (halign : dkeys st.cache = dkeys st.cacheTtl)
    (hcap : maxSize ≤ st.cache.length) :
    ((∀ p ∈ st.cacheTtl, now < p.2) →
      ∃ k e, dminSnd st.cacheTtl = some (k, e) ∧ (k, e) ∈ st.cacheTtl ∧
        (∀ q ∈ st.cacheTtl, e ≤ q.2) ∧
        set_cached maxSize redis book_name tags result ttlArg now st =
          ⟨dset (ddel st.cache k) (get_cache_key book_name tags) result,
           dset (ddel st.cacheTtl k) (get_cache_key book_name tags)
             (now + ttlArg.getD CACHE_DEFAULT_TTL)⟩) ∧
    ((purge_expired now st).cache.length < maxSize →
      set_cached maxSize redis book_name tags result ttlArg now st =
        ⟨dset (purge_expired now st).cache (get_cache_key book_name tags)
           result,
         dset (purge_expired now st).cacheTtl (get_cache_key book_name tags)
           (now + ttlArg.getD CACHE_DEFAULT_TTL)⟩) := by
  have hset : set_cached maxSize redis book_name tags result ttlArg now st =
      local_set maxSize (get_cache_key book_name tags) result
        (now + ttlArg.getD CACHE_DEFAULT_TTL) now st := by
    rcases hredis with rfl | rfl <;> rfl
  constructor
  · intro hfresh
    have hpurge := purge_of_fresh now st hfresh
    have hne : st.cacheTtl ≠ [] := by
      intro h0
      have hle := lengths_eq_of_keys st halign
      rw [h0] at hle
      simp only [List.length_nil] at hle
      omega
    cases hmin : dminSnd st.cacheTtl with
    | none => exact absurd (dminSnd_eq_none _ hmin) hne
    | some p =>
        refine ⟨p.1, p.2, rfl, dminSnd_mem _ _ hmin,
          fun q hq => dminSnd_le _ _ hmin q hq, ?_⟩
        rw [hset]
        simp only [local_set]
        rw [if_pos hcap, hpurge, if_pos hcap, hmin]
  · intro hafter
    rw [hset]
    simp only [local_set]
    rw [if_pos hcap, if_neg (not_le_of_lt hafter)]

/-- C3, witness: a store of capacity one holding one fresh entry evicts
exactly that entry (its expiry is minimal) and inserts the new one. -/
theorem c3_capacity_eviction_witness :
    ∃ k e, dminSnd [("k", (50 : Nat))] = some (k, e) ∧
      (k, e) ∈ ([("k", (50 : Nat))] : Dict Nat) ∧
      (∀ q ∈ ([("k", (50 : Nat))] : Dict Nat), e ≤ q.2) ∧
      set_cached 1 none "b" [] "v" none 0 ⟨[("k", "v0")], [("k", 50)]⟩ =
        ⟨dset (ddel [("k", "v0")] k) (get_cache_key "b" []) "v",
         dset (ddel [("k", (50 : Nat))] k) (get_cache_key "b" [])
           (0 + (none : Option Nat).getD CACHE_DEFAULT_TTL)⟩ :=
  (c3_capacity_eviction 1 none "b" [] "v" none 0
    ⟨[("k", "v0")], [("k", 50)]⟩ (le_refl 1) (Or.inl rfl) rfl
    (le_refl 1)).1 (by decide)

/-! ### Claim C4 -/

/-- C4: each cache operation (get, set, clear) preserves the invariant
that the payload dict and the expiry dict have exactly the same keys
and that the local store holds at most the configured maximum number of
entries, for any maximum size of at least one, any networked-backend
outcome, any inputs and any time. -/
theorem c4_operations_preserve_cache_invariants (maxSize : Nat)
    (hmax : 1 ≤ maxSize) (redisG : RedisGetOutcome)
    (redisS : RedisSetOutcome) (book_name : String) (tags : List String)
    (result : String) (ttlArg : Option Nat) (now : Nat) (st : CacheState)
    (hInv : CacheInv maxSize st) :
    CacheInv maxSize (get_cached redisG book_name tags ttlArg now st).2 ∧
    CacheInv maxSize
      (set_cached maxSize redisS book_name tags result ttlArg now st) ∧
    CacheInv maxSize (clear_cache st) := by
  refine ⟨?_, ?_, rfl, Nat.zero_le maxSize⟩
  · cases redisG with
    | none => exact local_get_inv maxSize _ now st hInv
    | some r =>
        cases r with
        | error u => exact local_get_inv maxSize _ now st hInv
        | ok o =>
            cases o with
            | none => exact local_get_inv maxSize _ now st hInv
            | some d =>
                by_cases hd : d = ""
                · have hred : get_cached (some (Except.ok (some d)))
                      book_name tags ttlArg now st =
                      local_get (get_cache_key book_name tags) now st := by
                    simp [get_cached, hd]
                  rw [hred]
                  exact local_get_inv maxSize _ now st hInv
                · have hred : get_cached (some (Except.ok (some d)))
                      book_name tags ttlArg now st = (some d, st) := by
                    simp [get_cached, hd]
                  rw [hred]
                  exact hInv
  · cases redisS with
    | none => exact local_set_inv maxSize hmax _ result _ now st hInv
    | some r =>
        cases r with
        | ok u => exact hInv
        | error u => exact local_set_inv maxSize hmax _ result _ now st hInv

/-- C4, witness: the invariant holds for the empty store of capacity
one and is preserved by one get, one set and one clear. -/
theorem c4_operations_preserve_cache_invariants_witness :
    (1 ≤ 1 ∧ CacheInv 1 ⟨[], []⟩) ∧
    CacheInv 1 (get_cached none "b" [] none 0 ⟨[], []⟩).2 ∧
    CacheInv 1 (set_cached 1 none "b" [] "v" none 0 ⟨[], []⟩) ∧
    CacheInv 1 (clear_cache ⟨[], []⟩) :=
  ⟨⟨le_refl 1, rfl, Nat.zero_le 1⟩,
   c4_operations_preserve_cache_invariants 1 (le_refl 1) none none "b" []
     "v" none 0 ⟨[], []⟩ ⟨rfl, Nat.zero_le 1⟩⟩

/-! ### Claim C10 -/

/-- C10: the `ttl` parameter of `get_cached` has no effect: for every
networked-read outcome, book name, tag list, time and cache state, any
two `ttl` argument values give the same result and the same final cache
state — expiry on read is decided only by the stored expiry timestamp. -/
theorem c10_get_ttl_has_no_effect (redis : RedisGetOutcome)
    (book_name : String) (tags : List String) (t1 t2 : Option Nat)
    (now : Nat) (st : CacheState) :
    get_cached redis book_name tags t1 now st =
      get_cached redis book_name tags t2 now st := rfl

end BookRec
